import Mathlib

/-!
# Verification of the StandUp task state engine

A shallow embedding of the task tracker's core (date/profile-partitioned
persistence in a key-value store, legacy migration, rollover of unfinished
tasks, GitHub metadata reconciliation, undo/redo history, and the status
toggle), translated from the TypeScript sources (`utils.ts`,
`TaskListView.tsx`, `types.ts`).

Strings are modelled as `List Char`.  JavaScript `Date` values enter the
code only through `getDateString` (an ISO `YYYY-MM-DD` string), so the
embedded operations take the date string directly; the result of
`new Date()` inside a function becomes an explicit `todayStr` parameter.
`LocalStorage` is an association list from keys to stored values; a stored
value is either a well-formed JSON encoding of a task list or unparseable
garbage (`JSON.parse` failure).  The fire-and-forget Apple-Notes export
performed by `saveTasks` is recorded in an explicit export log.
-/

namespace Standup

abbrev Str := List Char

/-- `TaskStatus` from `types.ts`. -/
inductive TaskStatus where
  | todo
  | inProgress
  | paused
  | done
  | waitingForReview
  | readyToMerge
deriving DecidableEq, Repr

/-- `TaskPriority` from `types.ts`. -/
inductive TaskPriority where
  | low
  | medium
  | high
deriving DecidableEq, Repr

/-- `PRReviewState` from `types.ts`. -/
inductive PRReviewState where
  | approved
  | changesRequested
  | pendingReview
deriving DecidableEq, Repr

/-- The `state` field of `LinkedPR` (`"OPEN" | "CLOSED" | "MERGED"`). -/
inductive PRState where
  | isOpen
  | isClosed
  | isMerged
deriving DecidableEq, Repr

/-- The `type` field of `GithubMetadata` (`"issue" | "pull_request"`). -/
inductive GithubType where
  | issue
  | pullRequest
deriving DecidableEq, Repr

/-- `LinkedPR` from `types.ts`. -/
structure LinkedPR where
  number : Nat
  title : Str
  url : Str
  state : PRState
  reviewState : Option PRReviewState
deriving DecidableEq, Repr

/-- `GithubMetadata` from `types.ts`; `state` is a free-form string. -/
structure GithubMetadata where
  url : Str
  number : Nat
  repo : Str
  owner : Str
  state : Str
  title : Str
  type : GithubType
  linkedPRs : Option (List LinkedPR)
  reviewState : Option PRReviewState
deriving DecidableEq, Repr

/-- `Task` from `types.ts`. -/
structure Task where
  id : Str
  title : Str
  description : Str
  priority : TaskPriority
  status : TaskStatus
  createdAt : Int
  github : Option GithubMetadata
  deadline : Option Int
deriving DecidableEq, Repr

/-- A value stored in `LocalStorage`: either the JSON encoding of a task
list, or a present-but-unparseable string (`JSON.parse` throws). -/
inductive StoredVal where
  | tasks (ts : List Task)
  | garbage
deriving DecidableEq, Repr

/-- `LocalStorage` as an association list with (intended) unique keys;
the list itself is what `LocalStorage.allItems()` enumerates. -/
abbrev Store := List (Str × StoredVal)

/-- `LocalStorage.getItem`. -/
def getItem : Store → Str → Option StoredVal
  | [], _ => none
  | (k', v') :: rest, k => if k' = k then some v' else getItem rest k

/-- `LocalStorage.setItem`: replace the binding in place, or append. -/
def setItem : Store → Str → StoredVal → Store
  | [], k, v => [(k, v)]
  | (k', v') :: rest, k, v =>
      if k' = k then (k, v) :: rest else (k', v') :: setItem rest k v

/-- `LocalStorage.removeItem`. -/
def removeItem : Store → Str → Store
  | [], _ => []
  | (k', v') :: rest, k =>
      if k' = k then removeItem rest k else (k', v') :: removeItem rest k

/-- The keys of a store, in enumeration order. -/
def storeKeys (s : Store) : List Str := s.map Prod.fst

@[simp] theorem getItem_nil (k : Str) : getItem [] k = none := rfl

theorem getItem_setItem_self (s : Store) (k : Str) (v : StoredVal) :
    getItem (setItem s k v) k = some v := by
  induction s with
  | nil => simp [setItem, getItem]
  | cons hd tl ih =>
      obtain ⟨k', v'⟩ := hd
      by_cases h : k' = k
      · simp [setItem, h, getItem]
      · simp [setItem, h, getItem, ih]

theorem getItem_setItem_ne (s : Store) (k q : Str) (v : StoredVal) (h : q ≠ k) :
    getItem (setItem s k v) q = getItem s q := by
  induction s with
  | nil => simp [setItem, getItem, Ne.symm h]
  | cons hd tl ih =>
      obtain ⟨k', v'⟩ := hd
      by_cases hk : k' = k
      · subst hk
        simp [setItem, getItem, Ne.symm h]
      · simp [setItem, hk, getItem, ih]

theorem getItem_removeItem_self (s : Store) (k : Str) :
    getItem (removeItem s k) k = none := by
  induction s with
  | nil => simp [removeItem]
  | cons hd tl ih =>
      obtain ⟨k', v'⟩ := hd
      by_cases h : k' = k <;> simp [removeItem, h, getItem, ih]

theorem getItem_removeItem_ne (s : Store) (k q : Str) (h : q ≠ k) :
    getItem (removeItem s k) q = getItem s q := by
  induction s with
  | nil => simp [removeItem]
  | cons hd tl ih =>
      obtain ⟨k', v'⟩ := hd
      by_cases hk : k' = k
      · subst hk
        simp [removeItem, getItem, Ne.symm h, ih]
      · simp [removeItem, hk, getItem, ih]

theorem mem_setItem {s : Store} {k : Str} {v : StoredVal} {kv : Str × StoredVal}
    (h : kv ∈ setItem s k v) : kv = (k, v) ∨ kv ∈ s := by
  induction s with
  | nil =>
      simp [setItem] at h
      exact Or.inl h
  | cons hd tl ih =>
      obtain ⟨k', v'⟩ := hd
      by_cases hk : k' = k
      · simp only [setItem, if_pos hk] at h
        rcases List.mem_cons.mp h with h | h
        · exact Or.inl h
        · exact Or.inr (List.mem_cons_of_mem _ h)
      · simp only [setItem, if_neg hk] at h
        rcases List.mem_cons.mp h with h | h
        · exact Or.inr (by simp [h])
        · rcases ih h with h' | h'
          · exact Or.inl h'
          · exact Or.inr (List.mem_cons_of_mem _ h')

theorem storeKeys_setItem (s : Store) (k : Str) (v : StoredVal) :
    storeKeys (setItem s k v) =
      if k ∈ storeKeys s then storeKeys s else storeKeys s ++ [k] := by
  induction s with
  | nil => simp [setItem, storeKeys]
  | cons hd tl ih =>
      obtain ⟨k', v'⟩ := hd
      by_cases hk : k' = k
      · have h1 : k ∈ storeKeys ((k', v') :: tl) := by
          simp only [storeKeys, List.map_cons, hk]
          exact List.mem_cons_self _ _
        simp only [setItem, if_pos hk, storeKeys, List.map_cons] at h1 ⊢
        rw [if_pos h1, hk]
      · simp only [setItem, if_neg hk]
        by_cases hmem : k ∈ storeKeys tl
        · have h1 : k ∈ storeKeys ((k', v') :: tl) := List.mem_cons_of_mem _ hmem
          simp only [storeKeys, List.map_cons] at h1 ih hmem ⊢
          rw [ih, if_pos hmem, if_pos h1]
        · have h1 : k ∉ storeKeys ((k', v') :: tl) := by
            intro hc
            rcases List.mem_cons.mp hc with hc | hc
            · exact hk hc.symm
            · exact hmem hc
          simp only [storeKeys, List.map_cons] at h1 ih hmem ⊢
          rw [ih, if_neg hmem, if_neg h1, List.cons_append]

theorem nodup_storeKeys_setItem {s : Store} (k : Str) (v : StoredVal)
    (h : (storeKeys s).Nodup) : (storeKeys (setItem s k v)).Nodup := by
  rw [storeKeys_setItem]
  by_cases hmem : k ∈ storeKeys s
  · simpa [hmem] using h
  · refine (if_neg hmem) ▸ List.Nodup.append h (List.nodup_singleton k) ?_
    intro a ha hb
    rw [List.mem_singleton] at hb
    exact hmem (hb ▸ ha)

theorem getItem_of_mem {s : Store} {k : Str} {v : StoredVal}
    (hnd : (storeKeys s).Nodup) (h : (k, v) ∈ s) : getItem s k = some v := by
  induction s with
  | nil => simp at h
  | cons hd tl ih =>
      obtain ⟨k', v'⟩ := hd
      simp only [storeKeys, List.map_cons, List.nodup_cons] at hnd
      rcases List.mem_cons.mp h with h | h
      · injection h with h1 h2
        simp [getItem, h1, h2]
      · have hne : k' ≠ k := by
          intro he
          exact hnd.1 (he ▸ (List.mem_map.mpr ⟨(k, v), h, rfl⟩))
        simpa [getItem, hne] using ih hnd.2 h

/-- `TASKS_KEY_PREFIX = "tasks_"`. -/
def TASKS_KEY_PREFIX : Str := "tasks_".toList

/-- `DEFAULT_PROFILE = "Work"`. -/
def DEFAULT_PROFILE : Str := "Work".toList

/-- The legacy pre-partitioning key `"tasks"`. -/
def LEGACY_KEY : Str := "tasks".toList

/-- The rollover regex test `/^\d{4}-\d{2}-\d{2}$/.test(s)`: exactly four
digits, a dash, two digits, a dash, two digits (total length ten). -/
def isDateStr (s : Str) : Bool :=
  decide (s.length = 10) && (s.take 4).all Char.isDigit &&
    decide ((s.drop 4).take 1 = ['-']) && ((s.drop 5).take 2).all Char.isDigit &&
    decide ((s.drop 7).take 1 = ['-']) && (s.drop 8).all Char.isDigit

/-- JavaScript lexicographic string comparison `a < b` (used by rollover's
`dateStr >= todayStr` as its negation). -/
def strLt : Str → Str → Bool
  | [], [] => false
  | [], _ :: _ => true
  | _ :: _, [] => false
  | a :: as, b :: bs => if a < b then true else if b < a then false else strLt as bs

/-- `getTaskKey` from `utils.ts`; the `Date` argument is represented by its
`getDateString` image `dateStr`. -/
def getTaskKey (dateStr profile : Str) : Str :=
  if profile = DEFAULT_PROFILE then TASKS_KEY_PREFIX ++ dateStr
  else TASKS_KEY_PREFIX ++ profile ++ '_' :: dateStr

/-- `JSON.parse` of a stored value, with the `catch` branch returning `[]`. -/
def parseTasks : StoredVal → List Task
  | StoredVal.tasks ts => ts
  | StoredVal.garbage => []

/-- Read and parse the list at a key; `[]` when absent or unparseable. -/
def readList (s : Store) (k : Str) : List Task :=
  match getItem s k with
  | none => []
  | some v => parseTasks v

/-- `getTasks` from `utils.ts`: one-time legacy migration for the default
profile, then read the partition.  Returns the task list together with the
store after any migration writes (`new Date()` is `todayStr`). -/
def getTasks (todayStr dateStr profile : Str) (s : Store) : List Task × Store :=
  let dateKey := getTaskKey dateStr profile
  if profile = DEFAULT_PROFILE then
    match getItem s LEGACY_KEY with
    | some oldData =>
        let todayKey := getTaskKey todayStr DEFAULT_PROFILE
        let s1 := setItem (removeItem s LEGACY_KEY) todayKey oldData
        if dateKey = todayKey then (parseTasks oldData, s1)
        else (readList s1 dateKey, s1)
    | none => (readList s dateKey, s)
  else (readList s dateKey, s)

/-- A single export event fired by `saveTasks` (the `syncDailyNote` call):
date string, task list, profile. -/
abbrev ExportEvent := Str × List Task × Str

/-- Storage plus the log of fire-and-forget exports to the note sink. -/
structure Sys where
  store : Store
  exports : List ExportEvent
deriving DecidableEq

/-- `saveTasks` from `utils.ts`: write the partition, fire the export. -/
def saveTasks (dateStr : Str) (tasks : List Task) (profile : Str) (sys : Sys) : Sys :=
  { store := setItem sys.store (getTaskKey dateStr profile) (StoredVal.tasks tasks),
    exports := sys.exports ++ [(dateStr, tasks, profile)] }

/-- `updateTask` from `utils.ts`: read-modify-write that persists only
when the target id is found. -/
def updateTask (todayStr : Str) (updatedTask : Task) (dateStr profile : Str)
    (sys : Sys) : Sys :=
  let r := getTasks todayStr dateStr profile sys.store
  match r.1.findIdx? (fun t => decide (t.id = updatedTask.id)) with
  | some index =>
      saveTasks dateStr (r.1.set index updatedTask) profile { sys with store := r.2 }
  | none => { sys with store := r.2 }

/-- The key prefix `migrateTasksToToday` scans for a profile. -/
def searchPrefix (profile : Str) : Str :=
  if profile = DEFAULT_PROFILE then TASKS_KEY_PREFIX
  else TASKS_KEY_PREFIX ++ profile ++ ['_']

/-- Whether rollover treats `key` as a dated partition of `profile`: the
profile's search prefix followed by a suffix that passes the strict
`YYYY-MM-DD` regex (the first two checks of the loop body). -/
def matchesProfile (profile key : Str) : Bool :=
  (searchPrefix profile).isPrefixOf key &&
    isDateStr (key.drop (searchPrefix profile).length)

/-- The per-entry loop of `migrateTasksToToday`, over a snapshot of
`allItems`, threading the live store; returns the final store, the
collected `migratedTasks` and `migratoryCount`. -/
def rolloverScan (profile todayStr : Str) :
    List (Str × StoredVal) → Store → Store × List Task × Nat
  | [], s => (s, [], 0)
  | (key, value) :: rest, s =>
      if matchesProfile profile key then
        if strLt (key.drop (searchPrefix profile).length) todayStr then
          match value with
          | StoredVal.tasks tasks =>
              let migrated := tasks.filter (fun t => decide (t.status ≠ TaskStatus.done))
              let remaining := tasks.filter (fun t => decide (t.status = TaskStatus.done))
              let s1 := if migrated.isEmpty then s
                        else setItem s key (StoredVal.tasks remaining)
              let r := rolloverScan profile todayStr rest s1
              (r.1, migrated ++ r.2.1, migrated.length + r.2.2)
          | StoredVal.garbage => rolloverScan profile todayStr rest s
        else rolloverScan profile todayStr rest s
      else rolloverScan profile todayStr rest s

/-- `migrateTasksToToday` from `utils.ts` (rollover): relocate unfinished
tasks from the profile's past partitions into today's, skipping ids
already present in today's list; returns `migratoryCount`. -/
def migrateTasksToToday (todayStr profile : Str) (sys : Sys) : Sys × Nat :=
  let scanned := rolloverScan profile todayStr sys.store sys.store
  let migrated := scanned.2.1
  if 0 < migrated.length then
    let g := getTasks todayStr todayStr profile scanned.1
    let existingIds := g.1.map Task.id
    let uniqueMigrated := migrated.filter (fun t => decide (t.id ∉ existingIds))
    if 0 < uniqueMigrated.length then
      (saveTasks todayStr (g.1 ++ uniqueMigrated) profile
        { store := g.2, exports := sys.exports }, scanned.2.2)
    else ({ sys with store := g.2 }, scanned.2.2)
  else ({ sys with store := scanned.1 }, scanned.2.2)

/-- `handleToggleStatus` from `TaskListView.tsx`: the next status computed
for a task (the initial `"done"` is kept when no branch matches). -/
def toggleStatus (status : TaskStatus) : TaskStatus :=
  if status = TaskStatus.done then TaskStatus.todo
  else if status = TaskStatus.todo then TaskStatus.done
  else if status = TaskStatus.paused then TaskStatus.inProgress
  else if status = TaskStatus.inProgress then TaskStatus.done
  else TaskStatus.done

/-- The undo/redo state of `TaskListView` (`tasks`, `undoStack`,
`redoStack`; `tasksRef.current` always mirrors `tasks`). -/
structure ViewState where
  tasks : List Task
  undoStack : List (List Task)
  redoStack : List (List Task)
deriving DecidableEq

/-- `handleUndo` from `TaskListView.tsx`. -/
def handleUndo (dateStr : Str) (vs : ViewState) (sys : Sys) : ViewState × Sys :=
  match vs.undoStack.getLast? with
  | none => (vs, sys)
  | some previousTasks =>
      ({ tasks := previousTasks,
         undoStack := vs.undoStack.dropLast,
         redoStack := vs.redoStack ++ [vs.tasks] },
       saveTasks dateStr previousTasks DEFAULT_PROFILE sys)

/-- `handleRedo` from `TaskListView.tsx`. -/
def handleRedo (dateStr : Str) (vs : ViewState) (sys : Sys) : ViewState × Sys :=
  match vs.redoStack.getLast? with
  | none => (vs, sys)
  | some nextTasks =>
      ({ tasks := nextTasks,
         undoStack := vs.undoStack ++ [vs.tasks],
         redoStack := vs.redoStack.dropLast },
       saveTasks dateStr nextTasks DEFAULT_PROFILE sys)

/-- One iteration of the `refreshGithubStatuses` loop for a single task:
fetch fresh metadata, compare `state` and the `linkedPRs` lists
(`JSON.stringify` equality is structural, order-sensitive equality), and
on a change write the fresh metadata into the working list and persist the
updated task via `updateTask`. -/
def refreshStep (fetch : Str → Option GithubMetadata) (todayStr dateStr : Str)
    (acc : List Task × Sys) (task : Task) : List Task × Sys :=
  match task.github with
  | none => acc
  | some github =>
      match fetch github.url with
      | none => acc
      | some metadata =>
          let stateChanged := metadata.state ≠ github.state
          let currentPRs := github.linkedPRs.getD []
          let newPRs := metadata.linkedPRs.getD []
          let linkedPRsChanged := currentPRs ≠ newPRs
          if stateChanged ∨ linkedPRsChanged then
            match acc.1.findIdx? (fun t => decide (t.id = task.id)) with
            | some index =>
                match acc.1.get? index with
                | some found =>
                    let newTask := { found with github := some metadata }
                    (acc.1.set index newTask,
                     updateTask todayStr newTask dateStr DEFAULT_PROFILE acc.2)
                | none => acc
            | none => acc
          else acc

/-- `refreshGithubStatuses` from `TaskListView.tsx`: refresh every task
carrying github metadata (the per-task concurrent fetches are
sequentialised; resolver failure for one task skips only that task). -/
def refreshGithubStatuses (fetch : Str → Option GithubMetadata)
    (todayStr dateStr : Str) (currentTasks : List Task) (sys : Sys) :
    List Task × Sys :=
  (currentTasks.filter (fun t => t.github.isSome)).foldl
    (refreshStep fetch todayStr dateStr) (currentTasks, sys)

/-! ## C9: the toggle transition -/

/-- C9 (counterexample): the claim says toggle maps every non-done status
to `done`, but the code maps `paused` to `in-progress`, not `done`. -/
theorem c9_counterexample :
    toggleStatus TaskStatus.paused = TaskStatus.inProgress ∧
    TaskStatus.inProgress ≠ TaskStatus.done := by decide

/-- C9 (amended): toggle maps `done` to `todo`, and maps `todo`,
`in-progress`, `waiting-for-review` and `ready-to-merge` to `done`; but
`paused` toggles to `in-progress`, so `done` is reachable in one toggle
from every state except `paused`. -/
theorem c9_toggle_transitions :
    toggleStatus TaskStatus.done = TaskStatus.todo ∧
    toggleStatus TaskStatus.todo = TaskStatus.done ∧
    toggleStatus TaskStatus.inProgress = TaskStatus.done ∧
    toggleStatus TaskStatus.waitingForReview = TaskStatus.done ∧
    toggleStatus TaskStatus.readyToMerge = TaskStatus.done ∧
    toggleStatus TaskStatus.paused = TaskStatus.inProgress := by decide

/-! ## C7: undo followed by redo -/

/-- C7: with a non-empty undo stack, `undo(); redo();` restores the exact
pre-undo task list (structural equality), the redo persists that list
(its `saveTasks` writes it under the partition key and fires its export),
and both stacks return to their pre-undo contents. -/
theorem c7_undo_redo_restores (dateStr : Str) (vs vs1 vs2 : ViewState)
    (sys sys1 sys2 : Sys) (h : vs.undoStack ≠ [])
    (hu : handleUndo dateStr vs sys = (vs1, sys1))
    (hr : handleRedo dateStr vs1 sys1 = (vs2, sys2)) :
    vs2.tasks = vs.tasks ∧
    sys2 = saveTasks dateStr vs.tasks DEFAULT_PROFILE sys1 ∧
    getItem sys2.store (getTaskKey dateStr DEFAULT_PROFILE) =
      some (StoredVal.tasks vs.tasks) ∧
    vs2.undoStack = vs.undoStack ∧ vs2.redoStack = vs.redoStack := by
  rcases List.eq_nil_or_concat vs.undoStack with h0 | ⟨init, last, hEq⟩
  · exact absurd h0 h
  · rw [List.concat_eq_append] at hEq
    simp only [handleUndo, hEq, List.getLast?_concat, List.dropLast_concat] at hu
    obtain ⟨h1, h2⟩ := Prod.mk.injEq .. ▸ hu
    subst h1
    subst h2
    simp only [handleRedo, List.getLast?_concat, List.dropLast_concat] at hr
    obtain ⟨h3, h4⟩ := Prod.mk.injEq .. ▸ hr
    subst h3
    subst h4
    refine ⟨rfl, rfl, ?_, hEq.symm, rfl⟩
    exact getItem_setItem_self ..

/-- C7 (witness): the round trip evaluated at a concrete state with one
snapshot on the undo stack. -/
theorem c7_undo_redo_restores_witness :
    (handleRedo [] (handleUndo [] ⟨[], [[]], []⟩ ⟨[], []⟩).1
        (handleUndo [] ⟨[], [[]], []⟩ ⟨[], []⟩).2).1.tasks = ([] : List Task) := by
  have h := c7_undo_redo_restores [] ⟨[], [[]], []⟩ _ _ ⟨[], []⟩ _ _
    (by decide) rfl rfl
  exact h.1

/-! ## C5, C8, C10: legacy migration and update -/

theorem length_TASKS_KEY_PREFIX : TASKS_KEY_PREFIX.length = 6 := rfl

theorem length_LEGACY_KEY : LEGACY_KEY.length = 5 := rfl

/-- A partition key is never the legacy key (it is strictly longer). -/
theorem getTaskKey_ne_legacy (dateStr profile : Str) :
    getTaskKey dateStr profile ≠ LEGACY_KEY := by
  intro h
  have hlen := congrArg List.length h
  by_cases hp : profile = DEFAULT_PROFILE
  · rw [getTaskKey, if_pos hp, List.length_append, length_TASKS_KEY_PREFIX,
      length_LEGACY_KEY] at hlen
    omega
  · rw [getTaskKey, if_neg hp] at hlen
    simp only [List.length_append, List.length_cons, length_TASKS_KEY_PREFIX,
      length_LEGACY_KEY] at hlen
    omega

/-- When the legacy key holds `v`, a default-profile load leaves the store
with the legacy key removed and `v` written under today's key. -/
theorem getTasks_snd_default_legacy (todayStr dateStr : Str) (s : Store)
    (v : StoredVal) (hleg : getItem s LEGACY_KEY = some v) :
    (getTasks todayStr dateStr DEFAULT_PROFILE s).2 =
      setItem (removeItem s LEGACY_KEY) (getTaskKey todayStr DEFAULT_PROFILE) v := by
  simp only [getTasks, hleg, eq_self_iff_true, if_true]
  split <;> rfl

/-- Without a legacy key (or outside the default profile) a load does not
touch the store. -/
theorem getTasks_snd_of_no_legacy (todayStr dateStr profile : Str) (s : Store)
    (hleg : getItem s LEGACY_KEY = none ∨ profile ≠ DEFAULT_PROFILE) :
    (getTasks todayStr dateStr profile s).2 = s := by
  by_cases hp : profile = DEFAULT_PROFILE
  · subst hp
    rcases hleg with hleg | hleg
    · simp [getTasks, hleg]
    · exact absurd rfl hleg
  · simp [getTasks, hp]

/-- Without a legacy key (or outside the default profile) a load returns
exactly the stored partition. -/
theorem getTasks_fst_of_no_legacy (todayStr dateStr profile : Str) (s : Store)
    (hleg : getItem s LEGACY_KEY = none ∨ profile ≠ DEFAULT_PROFILE) :
    (getTasks todayStr dateStr profile s).1 =
      readList s (getTaskKey dateStr profile) := by
  by_cases hp : profile = DEFAULT_PROFILE
  · subst hp
    rcases hleg with hleg | hleg
    · simp [getTasks, hleg]
    · exact absurd rfl hleg
  · simp [getTasks, hp]

/-- C5: a load that finds and migrates the legacy `"tasks"` key leaves the
legacy key absent, and every subsequent load is then a pure read (the
store is a fixpoint: no further migration ever happens). -/
theorem c5_legacy_migration_at_most_once (todayStr dateStr : Str) (s : Store)
    (v : StoredVal) (hleg : getItem s LEGACY_KEY = some v) :
    getItem (getTasks todayStr dateStr DEFAULT_PROFILE s).2 LEGACY_KEY = none ∧
    ∀ t2 d2 p2,
      (getTasks t2 d2 p2 (getTasks todayStr dateStr DEFAULT_PROFILE s).2).2 =
        (getTasks todayStr dateStr DEFAULT_PROFILE s).2 := by
  have habs : getItem (getTasks todayStr dateStr DEFAULT_PROFILE s).2 LEGACY_KEY = none := by
    rw [getTasks_snd_default_legacy todayStr dateStr s v hleg,
      getItem_setItem_ne _ _ _ _ (Ne.symm (getTaskKey_ne_legacy _ _))]
    exact getItem_removeItem_self ..
  exact ⟨habs, fun t2 d2 p2 => getTasks_snd_of_no_legacy t2 d2 p2 _ (Or.inl habs)⟩

/-- C5 (witness): a concrete store holding only the legacy key. -/
theorem c5_legacy_migration_at_most_once_witness :
    getItem (getTasks "2026-10-12".toList "2026-10-12".toList DEFAULT_PROFILE
      [(LEGACY_KEY, StoredVal.tasks [])]).2 LEGACY_KEY = none :=
  (c5_legacy_migration_at_most_once "2026-10-12".toList "2026-10-12".toList
    [(LEGACY_KEY, StoredVal.tasks [])] (StoredVal.tasks []) (by decide)).1

/-- C10: when the legacy key holds `v`, a default-profile load writes `v`
verbatim under today's partition key — replacing, not merging with, any
list already stored there. -/
theorem c10_legacy_migration_replaces_today (todayStr dateStr : Str) (s : Store)
    (v : StoredVal) (hleg : getItem s LEGACY_KEY = some v) :
    getItem (getTasks todayStr dateStr DEFAULT_PROFILE s).2
      (getTaskKey todayStr DEFAULT_PROFILE) = some v := by
  rw [getTasks_snd_default_legacy todayStr dateStr s v hleg]
  exact getItem_setItem_self ..

/-- A sample task used by concrete witnesses and counterexamples. -/
def sampleTask (i : Str) (st : TaskStatus) : Task :=
  { id := i, title := [], description := [], priority := TaskPriority.low,
    status := st, createdAt := 0, github := none, deadline := none }

/-- C10 (witness): today's partition holds task `b`; after the migrating
load it holds exactly the legacy list (task `a`), and `b` is gone. -/
theorem c10_legacy_migration_replaces_today_witness :
    getItem (getTasks "2026-10-12".toList "2026-10-12".toList DEFAULT_PROFILE
      [(getTaskKey "2026-10-12".toList DEFAULT_PROFILE,
          StoredVal.tasks [sampleTask ['b'] TaskStatus.todo]),
       (LEGACY_KEY, StoredVal.tasks [sampleTask ['a'] TaskStatus.todo])]).2
      (getTaskKey "2026-10-12".toList DEFAULT_PROFILE) =
      some (StoredVal.tasks [sampleTask ['a'] TaskStatus.todo]) :=
  c10_legacy_migration_replaces_today "2026-10-12".toList "2026-10-12".toList
    _ _ (by decide)

/-- C8 (counterexample): with the legacy key still present, an update whose
id occurs nowhere does change the stored partition — the load inside
`updateTask` performs the legacy migration, overwriting today's list. -/
theorem c8_counterexample :
    (sampleTask ['x'] TaskStatus.todo).id ∉
      (readList [(LEGACY_KEY, StoredVal.tasks [sampleTask ['a'] TaskStatus.todo]),
        (getTaskKey "2026-10-12".toList DEFAULT_PROFILE,
          StoredVal.tasks [sampleTask ['b'] TaskStatus.todo])]
        (getTaskKey "2026-10-12".toList DEFAULT_PROFILE)).map Task.id ∧
    readList (updateTask "2026-10-12".toList (sampleTask ['x'] TaskStatus.todo)
        "2026-10-12".toList DEFAULT_PROFILE
        ⟨[(LEGACY_KEY, StoredVal.tasks [sampleTask ['a'] TaskStatus.todo]),
          (getTaskKey "2026-10-12".toList DEFAULT_PROFILE,
            StoredVal.tasks [sampleTask ['b'] TaskStatus.todo])], []⟩).store
      (getTaskKey "2026-10-12".toList DEFAULT_PROFILE) =
      [sampleTask ['a'] TaskStatus.todo] ∧
    [sampleTask ['a'] TaskStatus.todo] ≠ [sampleTask ['b'] TaskStatus.todo] := by
  decide

/-- C8 (amended): provided the legacy key is absent (or the profile is not
the default, so no migration can fire), `updateTask` with an id that occurs
nowhere in the partition is a complete no-op: the store is unchanged and no
save — hence no export — happens. -/
theorem c8_update_unknown_id_noop (todayStr dateStr profile : Str) (t : Task)
    (sys : Sys)
    (hleg : getItem sys.store LEGACY_KEY = none ∨ profile ≠ DEFAULT_PROFILE)
    (hid : ∀ x ∈ readList sys.store (getTaskKey dateStr profile), x.id ≠ t.id) :
    updateTask todayStr t dateStr profile sys = sys := by
  have h1 := getTasks_fst_of_no_legacy todayStr dateStr profile sys.store hleg
  have h2 := getTasks_snd_of_no_legacy todayStr dateStr profile sys.store hleg
  have hnone : (getTasks todayStr dateStr profile sys.store).1.findIdx?
      (fun x => decide (x.id = t.id)) = none := by
    rw [h1]
    exact List.findIdx?_eq_none_iff.mpr fun x hx => decide_eq_false (hid x hx)
  simp only [updateTask, hnone, h2]

/-- C8 (witness): a no-legacy store with one task `b`; updating unknown id
`x` returns the system unchanged. -/
theorem c8_update_unknown_id_noop_witness :
    updateTask "2026-10-12".toList (sampleTask ['x'] TaskStatus.todo)
      "2026-10-12".toList DEFAULT_PROFILE
      ⟨[(getTaskKey "2026-10-12".toList DEFAULT_PROFILE,
          StoredVal.tasks [sampleTask ['b'] TaskStatus.todo])], []⟩ =
      ⟨[(getTaskKey "2026-10-12".toList DEFAULT_PROFILE,
          StoredVal.tasks [sampleTask ['b'] TaskStatus.todo])], []⟩ :=
  c8_update_unknown_id_noop "2026-10-12".toList "2026-10-12".toList
    DEFAULT_PROFILE (sampleTask ['x'] TaskStatus.todo) _
    (Or.inl (by decide)) (by decide)

/-! ## C2: what the rollover count counts -/

/-- C2 (counterexample): one past partition holds a non-done task whose id
`a` already exists in today's list.  Rollover returns `1` although nothing
is relocated: today's partition is unchanged (the task is skipped as a
duplicate — and silently dropped from its past partition). -/
theorem c2_counterexample :
    (migrateTasksToToday "2026-10-12".toList DEFAULT_PROFILE
      ⟨[(getTaskKey "2000-01-01".toList DEFAULT_PROFILE,
           StoredVal.tasks [sampleTask ['a'] TaskStatus.todo]),
        (getTaskKey "2026-10-12".toList DEFAULT_PROFILE,
           StoredVal.tasks [sampleTask ['a'] TaskStatus.done])], []⟩).2 = 1 ∧
    readList (migrateTasksToToday "2026-10-12".toList DEFAULT_PROFILE
      ⟨[(getTaskKey "2000-01-01".toList DEFAULT_PROFILE,
           StoredVal.tasks [sampleTask ['a'] TaskStatus.todo]),
        (getTaskKey "2026-10-12".toList DEFAULT_PROFILE,
           StoredVal.tasks [sampleTask ['a'] TaskStatus.done])], []⟩).1.store
      (getTaskKey "2026-10-12".toList DEFAULT_PROFILE) =
      [sampleTask ['a'] TaskStatus.done] ∧
    readList (migrateTasksToToday "2026-10-12".toList DEFAULT_PROFILE
      ⟨[(getTaskKey "2000-01-01".toList DEFAULT_PROFILE,
           StoredVal.tasks [sampleTask ['a'] TaskStatus.todo]),
        (getTaskKey "2026-10-12".toList DEFAULT_PROFILE,
           StoredVal.tasks [sampleTask ['a'] TaskStatus.done])], []⟩).1.store
      (getTaskKey "2000-01-01".toList DEFAULT_PROFILE) = [] := by
  decide

/-- The number of non-done tasks the rollover scan for `profile` finds in
one stored entry (the counting function the amended C2 refines to). -/
def entryNonDoneCount (profile todayStr : Str) (kv : Str × StoredVal) : Nat :=
  if matchesProfile profile kv.1 &&
      strLt (kv.1.drop (searchPrefix profile).length) todayStr then
    match kv.2 with
    | StoredVal.tasks ts =>
        (ts.filter (fun t => decide (t.status ≠ TaskStatus.done))).length
    | StoredVal.garbage => 0
  else 0

/-- The scan's `migratoryCount` equals the total number of non-done tasks
found in matched past entries of the snapshot. -/
theorem rolloverScan_count (profile todayStr : Str)
    (entries : List (Str × StoredVal)) (s : Store) :
    (rolloverScan profile todayStr entries s).2.2 =
      (entries.map (entryNonDoneCount profile todayStr)).sum := by
  induction entries generalizing s with
  | nil => rfl
  | cons hd tl ih =>
      obtain ⟨key, value⟩ := hd
      by_cases h1 : matchesProfile profile key = true
      · by_cases h2 : strLt (key.drop (searchPrefix profile).length) todayStr = true
        · cases value with
          | tasks ts => simp [rolloverScan, h1, h2, entryNonDoneCount, ih]
          | garbage => simp [rolloverScan, h1, h2, entryNonDoneCount, ih]
        · simp [rolloverScan, h1, h2, entryNonDoneCount, ih]
      · simp [rolloverScan, h1, entryNonDoneCount, ih]

/-- C2 (amended): rollover returns the number of non-done tasks found in
(and removed from) the profile's strictly-past partitions — including the
tasks later skipped on append because their id already exists in today's
list.  It is not the number of tasks actually relocated. -/
theorem c2_rollover_count (todayStr profile : Str) (sys : Sys) :
    (migrateTasksToToday todayStr profile sys).2 =
      (sys.store.map (entryNonDoneCount profile todayStr)).sum := by
  have h := rolloverScan_count profile todayStr sys.store sys.store
  simp only [migrateTasksToToday]
  split
  · split
    · exact h
    · exact h
  · exact h

/-! ## C1, C6: reconciliation -/

/-- Setting an index to a value with the same image under `f` preserves the
`f`-image of the list, provided the index holds `a`. -/
theorem map_set_eq_of_get? {α β : Type _} (l : List α) (i : Nat) (x a : α)
    (f : α → β) (hg : l.get? i = some a) (hf : f x = f a) :
    (l.set i x).map f = l.map f := by
  apply List.ext
  intro n
  rw [List.get?_map, List.get?_map, List.get?_set]
  by_cases h : i = n
  · subst h
    rw [if_pos rfl, hg]
    simp [hf]
  · rw [if_neg h]

/-- One reconciliation step preserves every task's id and status in the
working list. -/
theorem refreshStep_preserves_status (fetch : Str → Option GithubMetadata)
    (todayStr dateStr : Str) (acc : List Task × Sys) (task : Task) :
    (refreshStep fetch todayStr dateStr acc task).1.map (fun x => (x.id, x.status)) =
      acc.1.map (fun x => (x.id, x.status)) := by
  cases hg : task.github with
  | none => simp [refreshStep, hg]
  | some github =>
      cases hf : fetch github.url with
      | none => simp [refreshStep, hg, hf]
      | some metadata =>
          by_cases hch : (metadata.state ≠ github.state ∨
              github.linkedPRs.getD [] ≠ metadata.linkedPRs.getD [])
          · cases hidx : acc.1.findIdx? (fun t => decide (t.id = task.id)) with
            | none => simp [refreshStep, hg, hf, hch, hidx]
            | some index =>
                cases hget : acc.1.get? index with
                | none =>
                    rw [List.get?_eq_getElem?] at hget
                    simp [refreshStep, hg, hf, hch, hidx, hget]
                | some found =>
                    have hget' := hget
                    rw [List.get?_eq_getElem?] at hget'
                    simp only [refreshStep, hg, hf, if_pos hch, hidx, hget, hget']
                    exact map_set_eq_of_get? acc.1 index _ found _ hget rfl
          · simp [refreshStep, hg, hf, hch]

/-- C1 (amended): reconciliation never changes any task's status — it only
refreshes the cached github metadata.  No fetched `reviewState` (approved,
changes_requested or pending_review) ever produces a `ready-to-merge` or
`waiting-for-review` transition, and in particular tasks in `paused` or
`done` keep their status, as does every other task. -/
theorem c1_reconciliation_preserves_status (fetch : Str → Option GithubMetadata)
    (todayStr dateStr : Str) (currentTasks : List Task) (sys : Sys) :
    (refreshGithubStatuses fetch todayStr dateStr currentTasks sys).1.map
        (fun x => (x.id, x.status)) =
      currentTasks.map (fun x => (x.id, x.status)) := by
  suffices h : ∀ (l : List Task) (acc : List Task × Sys),
      (l.foldl (refreshStep fetch todayStr dateStr) acc).1.map
          (fun x => (x.id, x.status)) =
        acc.1.map (fun x => (x.id, x.status)) from h _ _
  intro l
  induction l with
  | nil => intro acc; rfl
  | cons hd tl ih =>
      intro acc
      rw [List.foldl_cons, ih, refreshStep_preserves_status]

/-- Sample cached metadata: an open pull request with an approved review. -/
def samplePRMeta : GithubMetadata :=
  { url := ['u'], number := 1, repo := ['r'], owner := ['o'],
    state := "open".toList, title := [], type := GithubType.pullRequest,
    linkedPRs := none, reviewState := some PRReviewState.approved }

/-- Sample task carrying `samplePRMeta`, in auto-derivable status `todo`. -/
def sampleGhTask : Task :=
  { id := ['a'], title := [], description := [], priority := TaskPriority.low,
    status := TaskStatus.todo, createdAt := 0, github := some samplePRMeta,
    deadline := none }

/-- C1 (counterexample): a `todo` task linked to an open pull request whose
fetched `reviewState` is `approved` keeps status `todo` after
reconciliation — it does not become `ready-to-merge` as the claim states. -/
theorem c1_counterexample :
    (refreshGithubStatuses (fun _ => some samplePRMeta) "2026-10-12".toList
        "2026-10-12".toList [sampleGhTask] ⟨[], []⟩).1 = [sampleGhTask] ∧
    sampleGhTask.status = TaskStatus.todo ∧
    samplePRMeta.type = GithubType.pullRequest ∧
    samplePRMeta.state = "open".toList ∧
    samplePRMeta.reviewState = some PRReviewState.approved ∧
    TaskStatus.todo ≠ TaskStatus.readyToMerge := by decide

/-- C6 (amended): for a task cached in its partition, reconciliation
re-persists it (fires a save, hence an export) exactly when the fetched
normalized `state` differs or the `linkedPRs` list differs under
structural, order-sensitive equality; `reviewState` and status play no
part, and with no such change the whole system is left untouched. -/
theorem c6_change_detection (fetch : Str → Option GithubMetadata)
    (todayStr dateStr : Str) (t : Task) (g m : GithubMetadata)
    (hg : t.github = some g) (hf : fetch g.url = some m) :
    ((refreshGithubStatuses fetch todayStr dateStr [t]
        ⟨[(getTaskKey dateStr DEFAULT_PROFILE, StoredVal.tasks [t])], []⟩).2.exports ≠ []
      ↔ (m.state ≠ g.state ∨ g.linkedPRs.getD [] ≠ m.linkedPRs.getD [])) ∧
    (¬(m.state ≠ g.state ∨ g.linkedPRs.getD [] ≠ m.linkedPRs.getD []) →
      refreshGithubStatuses fetch todayStr dateStr [t]
        ⟨[(getTaskKey dateStr DEFAULT_PROFILE, StoredVal.tasks [t])], []⟩ =
        ([t], ⟨[(getTaskKey dateStr DEFAULT_PROFILE, StoredVal.tasks [t])], []⟩)) := by
  have hfil : ([t].filter (fun x => x.github.isSome)) = [t] := by
    simp [List.filter_cons, hg]
  have hleg : getTaskKey dateStr DEFAULT_PROFILE ≠ LEGACY_KEY :=
    getTaskKey_ne_legacy _ _
  by_cases hch : (m.state ≠ g.state ∨ g.linkedPRs.getD [] ≠ m.linkedPRs.getD [])
  · have hres : refreshGithubStatuses fetch todayStr dateStr [t]
        ⟨[(getTaskKey dateStr DEFAULT_PROFILE, StoredVal.tasks [t])], []⟩ =
        ([{t with github := some m}],
         ⟨[(getTaskKey dateStr DEFAULT_PROFILE,
             StoredVal.tasks [{t with github := some m}])],
          [(dateStr, [{t with github := some m}], DEFAULT_PROFILE)]⟩) := by
      simp [refreshGithubStatuses, hfil, refreshStep, hg, hf, hch,
        List.findIdx?_cons, updateTask, getTasks, getItem, readList,
        parseTasks, saveTasks, setItem, hleg]
    rw [hres]
    refine ⟨⟨fun _ => hch, fun _ => by simp⟩, fun hco => absurd hch hco⟩
  · have hres : refreshGithubStatuses fetch todayStr dateStr [t]
        ⟨[(getTaskKey dateStr DEFAULT_PROFILE, StoredVal.tasks [t])], []⟩ =
        ([t], ⟨[(getTaskKey dateStr DEFAULT_PROFILE, StoredVal.tasks [t])], []⟩) := by
      simp [refreshGithubStatuses, hfil, refreshStep, hg, hf, hch]
    rw [hres]
    exact ⟨by simp [hch], fun _ => rfl⟩

/-- Fresh metadata equal to `samplePRMeta` except that the PR has been
closed (`state` differs). -/
def samplePRMetaClosed : GithubMetadata :=
  { samplePRMeta with state := "closed".toList }

/-- Fresh metadata equal to `samplePRMeta` except for `reviewState`
(`state` and `linkedPRs` unchanged). -/
def samplePRMetaRereviewed : GithubMetadata :=
  { samplePRMeta with reviewState := some PRReviewState.changesRequested }

/-- C6 (witness): a fetched `state` change on the cached task does fire a
persist (the export log becomes non-empty). -/
theorem c6_change_detection_witness :
    (refreshGithubStatuses (fun _ => some samplePRMetaClosed)
        "2026-10-12".toList "2026-10-12".toList [sampleGhTask]
        ⟨[(getTaskKey "2026-10-12".toList DEFAULT_PROFILE,
            StoredVal.tasks [sampleGhTask])], []⟩).2.exports ≠ [] :=
  (c6_change_detection (fun _ => some samplePRMetaClosed)
    "2026-10-12".toList "2026-10-12".toList sampleGhTask samplePRMeta
    samplePRMetaClosed rfl rfl).1.mpr (by decide)

/-- C6 (counterexample): the fetched `reviewState` differs from the cached
one while `state` and `linkedPRs` are unchanged, yet the task is not
re-persisted (no save, no export, system untouched) — refuting the claim
that a task is re-persisted whenever any of the four compared fields
differs. -/
theorem c6_counterexample :
    samplePRMetaRereviewed.reviewState ≠ samplePRMeta.reviewState ∧
    (refreshGithubStatuses (fun _ => some samplePRMetaRereviewed)
        "2026-10-12".toList "2026-10-12".toList [sampleGhTask]
        ⟨[(getTaskKey "2026-10-12".toList DEFAULT_PROFILE,
            StoredVal.tasks [sampleGhTask])], []⟩).2.exports = [] ∧
    (refreshGithubStatuses (fun _ => some samplePRMetaRereviewed)
        "2026-10-12".toList "2026-10-12".toList [sampleGhTask]
        ⟨[(getTaskKey "2026-10-12".toList DEFAULT_PROFILE,
            StoredVal.tasks [sampleGhTask])], []⟩).2.store =
      [(getTaskKey "2026-10-12".toList DEFAULT_PROFILE,
          StoredVal.tasks [sampleGhTask])] := by
  decide

/-! ## C4: strict date suffixes and partition isolation -/

theorem isDateStr_parts {s : Str} (h : isDateStr s = true) :
    s.length = 10 ∧ (s.take 4).all Char.isDigit = true ∧
    (s.drop 4).take 1 = ['-'] ∧ ((s.drop 5).take 2).all Char.isDigit = true ∧
    (s.drop 7).take 1 = ['-'] ∧ (s.drop 8).all Char.isDigit = true := by
  simp only [isDateStr, Bool.and_eq_true, decide_eq_true_eq] at h
  tauto

/-- A string passing the date regex decomposes into its digit segments and
the two dashes. -/
theorem isDateStr_decomp {s : Str} (h : isDateStr s = true) :
    s = s.take 4 ++ '-' :: ((s.drop 5).take 2 ++ '-' :: s.drop 8) := by
  obtain ⟨-, -, h4, -, h7, -⟩ := isDateStr_parts h
  have e4 : s.drop 4 = '-' :: s.drop 5 := by
    have e := List.take_append_drop 1 (s.drop 4)
    rw [h4, List.drop_drop] at e
    norm_num at e
    exact e.symm
  have e7 : s.drop 7 = '-' :: s.drop 8 := by
    have e := List.take_append_drop 1 (s.drop 7)
    rw [h7, List.drop_drop] at e
    norm_num at e
    exact e.symm
  have e5 : s.drop 5 = (s.drop 5).take 2 ++ s.drop 7 := by
    have e := List.take_append_drop 2 (s.drop 5)
    rw [List.drop_drop] at e
    norm_num at e
    exact e.symm
  calc s = s.take 4 ++ s.drop 4 := (List.take_append_drop 4 s).symm
    _ = s.take 4 ++ '-' :: s.drop 5 := by rw [e4]
    _ = s.take 4 ++ '-' :: ((s.drop 5).take 2 ++ s.drop 7) := by rw [← e5]
    _ = s.take 4 ++ '-' :: ((s.drop 5).take 2 ++ '-' :: s.drop 8) := by rw [e7]

/-- Every character of a date-shaped string is a digit or a dash. -/
theorem isDateStr_chars {s : Str} (h : isDateStr s = true) :
    ∀ c ∈ s, c.isDigit = true ∨ c = '-' := by
  intro c hc
  obtain ⟨-, h1, -, h2, -, h3⟩ := isDateStr_parts h
  rw [isDateStr_decomp h] at hc
  simp only [List.mem_append, List.mem_cons] at hc
  rcases hc with hc | hc | hc | hc | hc
  · exact Or.inl (List.all_eq_true.mp h1 c hc)
  · exact Or.inr hc
  · exact Or.inl (List.all_eq_true.mp h2 c hc)
  · exact Or.inr hc
  · exact Or.inl (List.all_eq_true.mp h3 c hc)

/-- A date-shaped string contains no underscore. -/
theorem isDateStr_no_underscore {s : Str} (h : isDateStr s = true) : '_' ∉ s := by
  intro hc
  rcases isDateStr_chars h '_' hc with hd | hd
  · exact absurd hd (by decide)
  · exact absurd hd (by decide)

theorem isDateStr_length {s : Str} (h : isDateStr s = true) : s.length = 10 :=
  (isDateStr_parts h).1

/-- The partition key function is injective on date-shaped dates: two keys
agree only for the same (date, profile) pair. -/
theorem getTaskKey_injective {d1 p1 d2 p2 : Str}
    (h1 : isDateStr d1 = true) (h2 : isDateStr d2 = true)
    (heq : getTaskKey d1 p1 = getTaskKey d2 p2) : d1 = d2 ∧ p1 = p2 := by
  by_cases hp1 : p1 = DEFAULT_PROFILE <;> by_cases hp2 : p2 = DEFAULT_PROFILE
  · rw [getTaskKey, if_pos hp1, getTaskKey, if_pos hp2] at heq
    exact ⟨List.append_cancel_left heq, hp1.trans hp2.symm⟩
  · rw [getTaskKey, if_pos hp1, getTaskKey, if_neg hp2, List.append_assoc] at heq
    have hd1 : d1 = p2 ++ '_' :: d2 := List.append_cancel_left heq
    have : '_' ∈ d1 := by
      rw [hd1]
      exact List.mem_append_right _ (List.mem_cons_self _ _)
    exact absurd this (isDateStr_no_underscore h1)
  · rw [getTaskKey, if_neg hp1, getTaskKey, if_pos hp2, List.append_assoc] at heq
    have hd2 : d2 = p1 ++ '_' :: d1 := (List.append_cancel_left heq).symm
    have : '_' ∈ d2 := by
      rw [hd2]
      exact List.mem_append_right _ (List.mem_cons_self _ _)
    exact absurd this (isDateStr_no_underscore h2)
  · rw [getTaskKey, if_neg hp1, getTaskKey, if_neg hp2, List.append_assoc,
      List.append_assoc] at heq
    have hcancel := List.append_cancel_left heq
    have heq' : (p1 ++ ['_']) ++ d1 = (p2 ++ ['_']) ++ d2 := by
      rw [List.append_assoc, List.append_assoc, List.singleton_append]
      exact hcancel
    have hlen : d1.length = d2.length := by
      rw [isDateStr_length h1, isDateStr_length h2]
    obtain ⟨hps, hds⟩ := List.append_inj' heq' hlen
    exact ⟨hds, List.append_cancel_right hps⟩

/-- Rollover's matcher never accepts another profile's partition key: the
strict date regex on the suffix rejects every cross-profile collision. -/
theorem matchesProfile_other_profile (p q e : Str)
    (he : isDateStr e = true) (hpq : p ≠ q) :
    matchesProfile p (getTaskKey e q) = false := by
  by_contra hmc
  have hm : matchesProfile p (getTaskKey e q) = true := by
    revert hmc
    cases matchesProfile p (getTaskKey e q) <;> simp
  rw [matchesProfile, Bool.and_eq_true, List.isPrefixOf_iff_prefix] at hm
  obtain ⟨hpre, hdate⟩ := hm
  by_cases hp : p = DEFAULT_PROFILE <;> by_cases hq : q = DEFAULT_PROFILE
  · exact hpq (hp.trans hq.symm)
  · have hdrop : (getTaskKey e q).drop (searchPrefix p).length = q ++ '_' :: e := by
      rw [getTaskKey, if_neg hq, searchPrefix, if_pos hp, List.append_assoc]
      exact List.drop_left _ _
    rw [hdrop] at hdate
    exact absurd (List.mem_append_right q (List.mem_cons_self '_' e))
      (isDateStr_no_underscore hdate)
  · obtain ⟨r, hr⟩ := hpre
    rw [searchPrefix, if_neg hp, getTaskKey, if_pos hq, List.append_assoc,
      List.append_assoc] at hr
    have h' := List.append_cancel_left hr
    have hmem : '_' ∈ p ++ (['_'] ++ r) :=
      List.mem_append_right _ (List.mem_append_left _ (by simp))
    rw [h'] at hmem
    exact absurd hmem (isDateStr_no_underscore he)
  · obtain ⟨r, hr⟩ := hpre
    have hkey2 : getTaskKey e q = ((TASKS_KEY_PREFIX ++ q) ++ ['_']) ++ e := by
      rw [getTaskKey, if_neg hq]
      simp [List.append_assoc]
    have h10 : ((getTaskKey e q).drop (searchPrefix p).length).length = 10 :=
      isDateStr_length hdate
    rw [List.length_drop] at h10
    have hkl : (getTaskKey e q).length =
        TASKS_KEY_PREFIX.length + q.length + 1 + e.length := by
      rw [getTaskKey, if_neg hq]
      simp [List.length_append]
      omega
    have hsl : (searchPrefix p).length = TASKS_KEY_PREFIX.length + p.length + 1 := by
      rw [searchPrefix, if_neg hp]
      simp [List.length_append]
      omega
    have he10 : e.length = 10 := isDateStr_length he
    have hrlen := congrArg List.length hr
    rw [List.length_append] at hrlen
    have hpql : p.length = q.length := by
      rw [length_TASKS_KEY_PREFIX] at hkl hsl
      omega
    rw [searchPrefix, if_neg hp, hkey2] at hr
    obtain ⟨hAB, -⟩ := List.append_inj hr
      (by simp [List.length_append, hpql])
    exact hpq (List.append_cancel_left (List.append_cancel_right hAB))

/-- The rollover scan writes only keys the matcher accepts whose date
suffix is strictly past: every other key keeps its stored value. -/
theorem rolloverScan_frame (profile todayStr : Str)
    (entries : List (Str × StoredVal)) (s : Store) (q : Str)
    (hq : matchesProfile profile q = false ∨
      strLt (q.drop (searchPrefix profile).length) todayStr = false) :
    getItem (rolloverScan profile todayStr entries s).1 q = getItem s q := by
  induction entries generalizing s with
  | nil => rfl
  | cons hd tl ih =>
      obtain ⟨key, value⟩ := hd
      have hne : matchesProfile profile key = true →
          strLt (key.drop (searchPrefix profile).length) todayStr = true →
          q ≠ key := by
        intro h1 h2 hqk
        subst hqk
        rcases hq with hq | hq
        · rw [h1] at hq
          exact Bool.noConfusion hq
        · rw [h2] at hq
          exact Bool.noConfusion hq
      by_cases h1 : matchesProfile profile key = true
      · by_cases h2 : strLt (key.drop (searchPrefix profile).length) todayStr = true
        · cases value with
          | tasks ts =>
              simp only [rolloverScan, h1, h2, if_true]
              rw [ih]
              split
              · rfl
              · exact getItem_setItem_ne _ _ _ _ (hne h1 h2)
          | garbage =>
              simp only [rolloverScan, h1, h2, if_true]
              exact ih s
        · simp only [rolloverScan, h1, h2, if_true, if_false]
          exact ih s
      · simp only [rolloverScan, Bool.not_eq_true] at h1 ⊢
        rw [h1]
        exact ih s

/-- A load writes at most the legacy key and (if migration fires, i.e. for
the default profile only) today's default-profile key. -/
theorem getTasks_frame (todayStr dateStr profile : Str) (s : Store) (q : Str)
    (hq3 : q ≠ LEGACY_KEY)
    (hq4 : profile = DEFAULT_PROFILE → q ≠ getTaskKey todayStr DEFAULT_PROFILE) :
    getItem (getTasks todayStr dateStr profile s).2 q = getItem s q := by
  by_cases hp : profile = DEFAULT_PROFILE
  · have hq4' := hq4 hp
    subst hp
    cases hleg : getItem s LEGACY_KEY with
    | none => rw [getTasks_snd_of_no_legacy _ _ _ _ (Or.inl hleg)]
    | some v =>
        rw [getTasks_snd_default_legacy _ _ _ _ hleg,
          getItem_setItem_ne _ _ _ _ hq4', getItem_removeItem_ne _ _ _ hq3]
  · rw [getTasks_snd_of_no_legacy _ _ _ _ (Or.inr hp)]

/-- Rollover writes at most: keys its matcher accepts, today's key for its
profile, and the legacy key (via the legacy migration inside its load). -/
theorem migrateTasksToToday_frame (todayStr profile : Str) (sys : Sys) (q : Str)
    (hq : matchesProfile profile q = false)
    (hq2 : q ≠ getTaskKey todayStr profile)
    (hq3 : q ≠ LEGACY_KEY) :
    getItem (migrateTasksToToday todayStr profile sys).1.store q =
      getItem sys.store q := by
  have hscan := rolloverScan_frame profile todayStr sys.store sys.store q (Or.inl hq)
  have hget : ∀ s : Store,
      getItem (getTasks todayStr todayStr profile s).2 q = getItem s q :=
    fun s => getTasks_frame todayStr todayStr profile s q hq3
      (fun hp => by rw [← hp]; exact hq2)
  simp only [migrateTasksToToday]
  split
  · split
    · simp only [saveTasks]
      rw [getItem_setItem_ne _ _ _ _ hq2, hget, hscan]
    · rw [hget, hscan]
  · exact hscan

/-- C4: (i) the partition key function is collision-free across
(date, profile) pairs; (ii) for distinct profiles, rollover for one never
accepts a dated key of the other (the strict `YYYY-MM-DD` suffix check);
(iii) consequently rollover for one profile leaves every dated partition
of any other profile untouched. -/
theorem c4_partition_isolation (p q d e todayStr : Str)
    (hd : isDateStr d = true) (he : isDateStr e = true)
    (htoday : isDateStr todayStr = true) :
    (getTaskKey d p = getTaskKey e q → d = e ∧ p = q) ∧
    (p ≠ q → matchesProfile p (getTaskKey e q) = false) ∧
    (p ≠ q → ∀ sys : Sys,
      getItem (migrateTasksToToday todayStr p sys).1.store (getTaskKey e q) =
        getItem sys.store (getTaskKey e q)) := by
  refine ⟨fun heq => getTaskKey_injective hd he heq,
    fun hpq => matchesProfile_other_profile p q e he hpq, fun hpq sys => ?_⟩
  have hm := matchesProfile_other_profile p q e he hpq
  have hk2 : getTaskKey e q ≠ getTaskKey todayStr p := fun heq =>
    hpq ((getTaskKey_injective he htoday heq).2).symm
  exact migrateTasksToToday_frame todayStr p sys (getTaskKey e q) hm hk2
    (getTaskKey_ne_legacy _ _)

/-- C4 (witness): concrete distinct profiles (the default `Work` and a
custom `Home`) with concrete dates; the other profile's key is rejected by
the matcher, keys are distinct, and rollover leaves the other profile's
partition untouched. -/
theorem c4_partition_isolation_witness :
    matchesProfile DEFAULT_PROFILE (getTaskKey "2025-01-02".toList "Home".toList) =
      false ∧
    getItem (migrateTasksToToday "2026-10-12".toList DEFAULT_PROFILE
        ⟨[(getTaskKey "2025-01-02".toList "Home".toList,
            StoredVal.tasks [sampleTask ['a'] TaskStatus.todo])], []⟩).1.store
      (getTaskKey "2025-01-02".toList "Home".toList) =
      getItem [(getTaskKey "2025-01-02".toList "Home".toList,
          StoredVal.tasks [sampleTask ['a'] TaskStatus.todo])]
        (getTaskKey "2025-01-02".toList "Home".toList) := by
  have h := c4_partition_isolation DEFAULT_PROFILE "Home".toList
    "2025-01-02".toList "2025-01-02".toList "2026-10-12".toList
    (by decide) (by decide) (by decide)
  exact ⟨h.2.1 (by decide),
    h.2.2 (by decide) ⟨[(getTaskKey "2025-01-02".toList "Home".toList,
      StoredVal.tasks [sampleTask ['a'] TaskStatus.todo])], []⟩⟩

/-! ## C3: rollover idempotence and duplicate ids -/

theorem strLt_irrefl (s : Str) : strLt s s = false := by
  induction s with
  | nil => rfl
  | cons a as ih => simp [strLt, ih]

/-- The matcher never accepts the legacy key (the prefix is too long). -/
theorem matchesProfile_legacy (p : Str) : matchesProfile p LEGACY_KEY = false := by
  rw [matchesProfile]
  cases hb : (searchPrefix p).isPrefixOf LEGACY_KEY with
  | false => rw [Bool.false_and]
  | true =>
      exfalso
      have hle := ((List.isPrefixOf_iff_prefix).mp hb).length_le
      rw [length_LEGACY_KEY] at hle
      by_cases hp : p = DEFAULT_PROFILE
      · rw [searchPrefix, if_pos hp, length_TASKS_KEY_PREFIX] at hle
        omega
      · rw [searchPrefix, if_neg hp] at hle
        simp only [List.length_append, length_TASKS_KEY_PREFIX,
          List.length_singleton] at hle
        omega

/-- Dropping a profile's search prefix from its own key yields the date. -/
theorem getTaskKey_drop_eq_date (dateStr profile : Str) :
    (getTaskKey dateStr profile).drop (searchPrefix profile).length = dateStr := by
  by_cases hp : profile = DEFAULT_PROFILE
  · rw [getTaskKey, if_pos hp, searchPrefix, if_pos hp]
    exact List.drop_left _ _
  · rw [getTaskKey, if_neg hp, searchPrefix, if_neg hp]
    have he : TASKS_KEY_PREFIX ++ profile ++ '_' :: dateStr =
        (TASKS_KEY_PREFIX ++ profile ++ ['_']) ++ dateStr := by
      simp [List.append_assoc]
    rw [he]
    exact List.drop_left _ _

/-- A successful lookup is a member of the association list. -/
theorem getItem_mem {s : Store} {k : Str} {v : StoredVal}
    (h : getItem s k = some v) : (k, v) ∈ s := by
  induction s with
  | nil => exact absurd h (by simp)
  | cons hd tl ih =>
      obtain ⟨k', v'⟩ := hd
      by_cases hk : k' = k
      · rw [getItem, if_pos hk] at h
        injection h with h
        simp [hk, h]
      · rw [getItem, if_neg hk] at h
        exact List.mem_cons_of_mem _ (ih h)

/-- A key present in the key list has a bound value. -/
theorem exists_of_mem_storeKeys {s : Store} {k : Str}
    (h : k ∈ storeKeys s) : ∃ v, (k, v) ∈ s := by
  obtain ⟨⟨k', v⟩, hmem, hk⟩ := List.mem_map.mp h
  dsimp at hk
  exact ⟨v, hk ▸ hmem⟩

/-- The scan never writes a key that does not occur in its snapshot. -/
theorem rolloverScan_frame_unscanned (profile todayStr : Str)
    (entries : List (Str × StoredVal)) (s : Store) (q : Str)
    (hq : q ∉ entries.map Prod.fst) :
    getItem (rolloverScan profile todayStr entries s).1 q = getItem s q := by
  induction entries generalizing s with
  | nil => rfl
  | cons hd tl ih =>
      obtain ⟨key, value⟩ := hd
      simp only [List.map_cons, List.mem_cons, not_or] at hq
      obtain ⟨hqk, hq'⟩ := hq
      by_cases h1 : matchesProfile profile key = true
      · by_cases h2 : strLt (key.drop (searchPrefix profile).length) todayStr = true
        · cases value with
          | tasks ts =>
              simp only [rolloverScan, h1, h2, if_true]
              rw [ih _ hq']
              split
              · rfl
              · exact getItem_setItem_ne _ _ _ _ hqk
          | garbage =>
              simp only [rolloverScan, h1, h2, if_true]
              exact ih s hq'
        · simp only [rolloverScan, h1, h2, if_true, if_false]
          exact ih s hq'
      · simp only [rolloverScan, Bool.not_eq_true] at h1 ⊢
        rw [h1]
        exact ih s hq'

/-- The scan preserves the key set being duplicate-free. -/
theorem rolloverScan_nodup_keys (profile todayStr : Str)
    (entries : List (Str × StoredVal)) (s : Store)
    (hnd : (storeKeys s).Nodup) :
    (storeKeys (rolloverScan profile todayStr entries s).1).Nodup := by
  induction entries generalizing s with
  | nil => exact hnd
  | cons hd tl ih =>
      obtain ⟨key, value⟩ := hd
      by_cases h1 : matchesProfile profile key = true
      · by_cases h2 : strLt (key.drop (searchPrefix profile).length) todayStr = true
        · cases value with
          | tasks ts =>
              simp only [rolloverScan, h1, h2, if_true]
              split
              · exact ih s hnd
              · exact ih _ (nodup_storeKeys_setItem _ _ hnd)
          | garbage =>
              simp only [rolloverScan, h1, h2, if_true]
              exact ih s hnd
        · simp only [rolloverScan, h1, h2, if_true, if_false]
          exact ih s hnd
      · simp only [rolloverScan, Bool.not_eq_true] at h1 ⊢
        rw [h1]
        exact ih s hnd

/-- The ids one stored entry contributes to a rollover for `profile`:
the ids of its tasks when the entry is an accepted strictly-past dated
partition of that profile, nothing otherwise. -/
def entryPastIds (profile todayStr : Str) (kv : Str × StoredVal) : List Str :=
  if matchesProfile profile kv.1 &&
      strLt (kv.1.drop (searchPrefix profile).length) todayStr then
    match kv.2 with
    | StoredVal.tasks ts => ts.map Task.id
    | StoredVal.garbage => []
  else []

/-- All ids stored in the profile's stale (strictly-past) partitions, in
enumeration order. -/
def pastIds (profile todayStr : Str) : Store → List Str
  | [] => []
  | kv :: rest => entryPastIds profile todayStr kv ++ pastIds profile todayStr rest

/-- The tasks the scan collects have ids forming a sublist of the ids
stored in the snapshot's stale past partitions. -/
theorem rolloverScan_migrated_sublist (profile todayStr : Str)
    (entries : List (Str × StoredVal)) (s : Store) :
    List.Sublist ((rolloverScan profile todayStr entries s).2.1.map Task.id)
      (pastIds profile todayStr entries) := by
  induction entries generalizing s with
  | nil => simp [rolloverScan, pastIds]
  | cons hd tl ih =>
      obtain ⟨key, value⟩ := hd
      rw [pastIds]
      by_cases h1 : matchesProfile profile key = true
      · by_cases h2 : strLt (key.drop (searchPrefix profile).length) todayStr = true
        · cases value with
          | tasks ts =>
              have hent : entryPastIds profile todayStr (key, StoredVal.tasks ts) =
                  ts.map Task.id := by
                simp [entryPastIds, h1, h2]
              simp only [rolloverScan, h1, h2, if_true, List.map_append, hent]
              exact List.Sublist.append ((List.filter_sublist ts).map Task.id) (ih _)
          | garbage =>
              have hent : entryPastIds profile todayStr (key, StoredVal.garbage) = [] := by
                simp [entryPastIds, h1, h2]
              simp only [rolloverScan, h1, h2, if_true, hent, List.nil_append]
              exact ih s
        · simp only [Bool.not_eq_true] at h2
          have hent : entryPastIds profile todayStr (key, value) = [] := by
            simp [entryPastIds, h2]
          simp only [rolloverScan, h1, h2, if_true, if_false, hent, List.nil_append]
          exact ih s
      · simp only [Bool.not_eq_true] at h1
        have hent : entryPastIds profile todayStr (key, value) = [] := by
          simp [entryPastIds, h1]
        simp only [rolloverScan, h1, hent, List.nil_append]
        exact ih s

/-- A key absent from the key list has no binding. -/
theorem getItem_eq_none_of_not_mem_keys {s : Store} {k : Str}
    (h : k ∉ storeKeys s) : getItem s k = none := by
  induction s with
  | nil => rfl
  | cons hd tl ih =>
      obtain ⟨k', v'⟩ := hd
      simp only [storeKeys, List.map_cons, List.mem_cons, not_or] at h
      rw [getItem, if_neg (Ne.symm h.1)]
      exact ih h.2

/-- After the scan, an accepted strictly-past key bound in the snapshot
holds — if it still parses to a list at all — only done tasks. -/
theorem rolloverScan_processed (profile todayStr : Str)
    (entries : List (Str × StoredVal)) (s : Store) (k : Str) (v : StoredVal)
    (hnd : (storeKeys entries).Nodup)
    (hmem : (k, v) ∈ entries)
    (h1 : matchesProfile profile k = true)
    (h2 : strLt (k.drop (searchPrefix profile).length) todayStr = true)
    (hget : getItem s k = some v) :
    ∀ ts, getItem (rolloverScan profile todayStr entries s).1 k =
      some (StoredVal.tasks ts) → ∀ t ∈ ts, t.status = TaskStatus.done := by
  induction entries generalizing s with
  | nil => exact absurd hmem (by simp)
  | cons hd tl ih =>
      obtain ⟨key, value⟩ := hd
      simp only [storeKeys, List.map_cons, List.nodup_cons] at hnd
      obtain ⟨hknotin, hndtl⟩ := hnd
      rcases List.mem_cons.mp hmem with hh | hh
      · injection hh with hk hv
        subst hk
        subst hv
        cases v with
        | tasks ts0 =>
            simp only [rolloverScan, h1, h2, if_true]
            by_cases hemp :
                (ts0.filter (fun t => decide (t.status ≠ TaskStatus.done))).isEmpty = true
            · rw [if_pos hemp, rolloverScan_frame_unscanned _ _ tl s k hknotin, hget]
              intro ts hts t ht
              injection hts with hts
              injection hts with hts
              have hnil := List.filter_eq_nil.mp (List.isEmpty_iff.mp hemp) t (hts ▸ ht)
              simpa using hnil
            · rw [if_neg hemp, rolloverScan_frame_unscanned _ _ tl _ k hknotin,
                getItem_setItem_self]
              intro ts hts t ht
              injection hts with hts
              injection hts with hts
              have := (List.mem_filter.mp (hts ▸ ht)).2
              simpa using this
        | garbage =>
            simp only [rolloverScan, h1, h2, if_true]
            intro ts hts
            rw [rolloverScan_frame_unscanned _ _ tl s k hknotin, hget] at hts
            exact absurd hts (by simp)
      · have hkne : k ≠ key := by
          intro he
          exact hknotin (he ▸ List.mem_map.mpr ⟨(k, v), hh, rfl⟩)
        by_cases hm1 : matchesProfile profile key = true
        · by_cases hm2 : strLt (key.drop (searchPrefix profile).length) todayStr = true
          · cases value with
            | tasks ts0 =>
                simp only [rolloverScan, hm1, hm2, if_true]
                split
                · exact ih s hndtl hh hget
                · refine ih _ hndtl hh ?_
                  rw [getItem_setItem_ne _ _ _ _ hkne]
                  exact hget
            | garbage =>
                simp only [rolloverScan, hm1, hm2, if_true]
                exact ih s hndtl hh hget
          · simp only [rolloverScan, hm1, hm2, if_true, if_false]
            exact ih s hndtl hh hget
        · simp only [rolloverScan, Bool.not_eq_true] at hm1 ⊢
          rw [hm1]
          exact ih s hndtl hh hget

/-- When the legacy key is present, a default-profile load of today's own
date returns the parsed legacy value (the early-return branch). -/
theorem getTasks_fst_default_legacy_today (todayStr : Str) (s : Store)
    (v : StoredVal) (hleg : getItem s LEGACY_KEY = some v) :
    (getTasks todayStr todayStr DEFAULT_PROFILE s).1 = parseTasks v := by
  simp [getTasks, hleg]

/-- Reading back today's partition right after a load of today's own date
yields exactly the list the load returned, with or without migration. -/
theorem getTasks_today_readback (todayStr profile : Str) (s : Store) :
    readList (getTasks todayStr todayStr profile s).2
        (getTaskKey todayStr profile) =
      (getTasks todayStr todayStr profile s).1 := by
  by_cases hp : profile = DEFAULT_PROFILE
  · subst hp
    cases hleg : getItem s LEGACY_KEY with
    | none =>
        rw [getTasks_snd_of_no_legacy _ _ _ _ (Or.inl hleg),
          getTasks_fst_of_no_legacy _ _ _ _ (Or.inl hleg)]
    | some v =>
        rw [getTasks_snd_default_legacy _ _ _ _ hleg,
          getTasks_fst_default_legacy_today _ _ _ hleg]
        unfold readList
        rw [getItem_setItem_self]
  · rw [getTasks_snd_of_no_legacy _ _ _ _ (Or.inr hp),
      getTasks_fst_of_no_legacy _ _ _ _ (Or.inr hp)]

/-- Preservation of duplicate-free keys through a load. -/
theorem getTasks_nodup_keys (todayStr dateStr profile : Str) (s : Store)
    (hnd : (storeKeys s).Nodup) :
    (storeKeys (getTasks todayStr dateStr profile s).2).Nodup := by
  have hsub : List.Sublist (storeKeys (removeItem s LEGACY_KEY)) (storeKeys s) := by
    clear hnd
    induction s with
    | nil => simp [removeItem, storeKeys]
    | cons hd tl ih =>
        obtain ⟨k', v'⟩ := hd
        by_cases hk : k' = LEGACY_KEY
        · simp only [removeItem, if_pos hk, storeKeys, List.map_cons]
          exact ih.trans (List.sublist_cons_self _ _)
        · simp only [removeItem, if_neg hk, storeKeys, List.map_cons]
          exact ih.cons₂ _
  by_cases hp : profile = DEFAULT_PROFILE
  · subst hp
    cases hleg : getItem s LEGACY_KEY with
    | none => rw [getTasks_snd_of_no_legacy _ _ _ _ (Or.inl hleg)]; exact hnd
    | some v =>
        rw [getTasks_snd_default_legacy _ _ _ _ hleg]
        exact nodup_storeKeys_setItem _ _ (hnd.sublist hsub)
  · rw [getTasks_snd_of_no_legacy _ _ _ _ (Or.inr hp)]
    exact hnd

/-- Rollover preserves duplicate-free keys. -/
theorem migrateTasksToToday_nodup_keys (todayStr profile : Str) (sys : Sys)
    (hnd : (storeKeys sys.store).Nodup) :
    (storeKeys (migrateTasksToToday todayStr profile sys).1.store).Nodup := by
  have hs1 := rolloverScan_nodup_keys profile todayStr sys.store sys.store hnd
  have hg := getTasks_nodup_keys todayStr todayStr profile
    (rolloverScan profile todayStr sys.store sys.store).1 hs1
  simp only [migrateTasksToToday]
  split
  · split
    · simp only [saveTasks]
      exact nodup_storeKeys_setItem _ _ hg
    · exact hg
  · exact hs1

/-- After rollover, every key other than the rollover profile's today key
and the legacy key holds exactly what the scan left there. -/
theorem migrate_post_scan_frame (todayStr profile : Str) (sys : Sys) (q : Str)
    (hq2 : q ≠ getTaskKey todayStr profile)
    (hq3 : q ≠ LEGACY_KEY) :
    getItem (migrateTasksToToday todayStr profile sys).1.store q =
      getItem (rolloverScan profile todayStr sys.store sys.store).1 q := by
  have hget : ∀ s : Store,
      getItem (getTasks todayStr todayStr profile s).2 q = getItem s q :=
    fun s => getTasks_frame todayStr todayStr profile s q hq3
      (fun hp => by rw [← hp]; exact hq2)
  simp only [migrateTasksToToday]
  split
  · split
    · simp only [saveTasks]
      rw [getItem_setItem_ne _ _ _ _ hq2, hget]
    · rw [hget]
  · rfl

/-- After rollover, today's partition list is one of: the scan's untouched
today value (nothing collected), exactly what the inner load returned
(everything collected was a duplicate), or that list followed by the
collected tasks whose ids it did not already contain. -/
theorem migrate_today_list (todayStr profile : Str) (sys : Sys) :
    (migrateTasksToToday todayStr profile sys).1.store =
        (rolloverScan profile todayStr sys.store sys.store).1 ∨
    readList (migrateTasksToToday todayStr profile sys).1.store
        (getTaskKey todayStr profile) =
      (getTasks todayStr todayStr profile
        (rolloverScan profile todayStr sys.store sys.store).1).1 ∨
    readList (migrateTasksToToday todayStr profile sys).1.store
        (getTaskKey todayStr profile) =
      (getTasks todayStr todayStr profile
          (rolloverScan profile todayStr sys.store sys.store).1).1 ++
        (rolloverScan profile todayStr sys.store sys.store).2.1.filter
          (fun t => decide (t.id ∉
            ((getTasks todayStr todayStr profile
              (rolloverScan profile todayStr sys.store sys.store).1).1).map
              Task.id)) := by
  simp only [migrateTasksToToday]
  split
  · split
    · right
      right
      simp only [saveTasks]
      rw [readList, getItem_setItem_self]
      rfl
    · right
      left
      exact getTasks_today_readback todayStr profile _
  · left
    rfl

/-- C3 (counterexample): two stale past partitions each hold a non-done
task with the same id `a`, today's partition is empty; after one rollover
today's list carries the id twice — the claimed duplicate-freedom fails. -/
theorem c3_counterexample :
    ¬ ((readList (migrateTasksToToday "2026-10-12".toList DEFAULT_PROFILE
        ⟨[(getTaskKey "2000-01-01".toList DEFAULT_PROFILE,
             StoredVal.tasks [sampleTask ['a'] TaskStatus.todo]),
          (getTaskKey "2000-01-02".toList DEFAULT_PROFILE,
             StoredVal.tasks [sampleTask ['a'] TaskStatus.todo])], []⟩).1.store
        (getTaskKey "2026-10-12".toList DEFAULT_PROFILE)).map Task.id).Nodup := by
  decide

/-- C3 (amended): a second rollover with no intervening mutation relocates
nothing (returns `0`) provided the store's keys are unique; and today's
partition after the first rollover has no two tasks with the same id — in
particular a task already present in today's list (matched by id) is never
appended again, even if it is also present in a stale past partition —
provided no id occurs twice across the profile's stale past partitions,
today's stored list has no repeated id, and (when the legacy `"tasks"` key
is still present, so its value becomes today's list) the legacy list has
no repeated id.  An id shared between today's list and a past partition is
allowed: the duplicate filter drops it.  Without per-past-partition
uniqueness duplicates do arise (see the counterexample). -/
theorem c3_rollover_idempotent (todayStr profile : Str) (sys : Sys)
    (hnd : (storeKeys sys.store).Nodup)
    (hpast : (pastIds profile todayStr sys.store).Nodup)
    (htoday : ((readList sys.store (getTaskKey todayStr profile)).map Task.id).Nodup)
    (hlegids : ∀ v, getItem sys.store LEGACY_KEY = some v →
      ((parseTasks v).map Task.id).Nodup) :
    (migrateTasksToToday todayStr profile
        (migrateTasksToToday todayStr profile sys).1).2 = 0 ∧
    ((readList (migrateTasksToToday todayStr profile sys).1.store
        (getTaskKey todayStr profile)).map Task.id).Nodup := by
  have hpastToday : strLt ((getTaskKey todayStr profile).drop
      (searchPrefix profile).length) todayStr = false := by
    rw [getTaskKey_drop_eq_date]
    exact strLt_irrefl _
  have hlegs1 : getItem (rolloverScan profile todayStr sys.store sys.store).1
      LEGACY_KEY = getItem sys.store LEGACY_KEY :=
    rolloverScan_frame _ _ _ _ _ (Or.inl (matchesProfile_legacy profile))
  have hreadToday : readList (rolloverScan profile todayStr sys.store sys.store).1
      (getTaskKey todayStr profile) =
      readList sys.store (getTaskKey todayStr profile) := by
    unfold readList
    rw [rolloverScan_frame _ _ _ _ _ (Or.inr hpastToday)]
  have hg1 : (((getTasks todayStr todayStr profile
      (rolloverScan profile todayStr sys.store sys.store).1).1).map Task.id).Nodup := by
    by_cases hp : profile = DEFAULT_PROFILE
    · cases hleg : getItem (rolloverScan profile todayStr sys.store sys.store).1
          LEGACY_KEY with
      | none =>
          rw [getTasks_fst_of_no_legacy _ _ _ _ (Or.inl hleg), hreadToday]
          exact htoday
      | some v =>
          subst hp
          rw [getTasks_fst_default_legacy_today _ _ _ hleg]
          exact hlegids v (hlegs1 ▸ hleg)
    · rw [getTasks_fst_of_no_legacy _ _ _ _ (Or.inr hp), hreadToday]
      exact htoday
  constructor
  · rw [c2_rollover_count]
    apply List.sum_eq_zero
    intro x hx
    obtain ⟨kv, hkv, rfl⟩ := List.mem_map.mp hx
    obtain ⟨k, v⟩ := kv
    by_cases hacc : (matchesProfile profile k &&
        strLt (k.drop (searchPrefix profile).length) todayStr) = true
    · have hacc' := hacc
      rw [Bool.and_eq_true] at hacc'
      obtain ⟨h1, h2⟩ := hacc'
      have hktoday : k ≠ getTaskKey todayStr profile := by
        intro he
        subst he
        exact Bool.noConfusion (hpastToday.symm.trans h2)
      have hkleg : k ≠ LEGACY_KEY := by
        intro he
        rw [he, matchesProfile_legacy] at h1
        exact Bool.noConfusion h1
      have hnd1 := migrateTasksToToday_nodup_keys todayStr profile sys hnd
      have hget1 : getItem (migrateTasksToToday todayStr profile sys).1.store k =
          some v := getItem_of_mem hnd1 hkv
      rw [migrate_post_scan_frame _ _ _ _ hktoday hkleg] at hget1
      by_cases hk0 : k ∈ storeKeys sys.store
      · obtain ⟨v0, hv0⟩ := exists_of_mem_storeKeys hk0
        have hget0 : getItem sys.store k = some v0 := getItem_of_mem hnd hv0
        have hproc := rolloverScan_processed profile todayStr sys.store sys.store
          k v0 hnd hv0 h1 h2 hget0
        cases v with
        | garbage => simp [entryNonDoneCount, hacc]
        | tasks ts =>
            have hdone := hproc ts hget1
            have hfil : ts.filter (fun t => decide (t.status ≠ TaskStatus.done)) = [] :=
              List.filter_eq_nil.mpr (fun a ha => by simp [hdone a ha])
            simp [entryNonDoneCount, hacc, hfil]
            exact hdone
      · rw [rolloverScan_frame_unscanned _ _ _ _ _ hk0,
          getItem_eq_none_of_not_mem_keys hk0] at hget1
        exact absurd hget1 (by simp)
    · simp only [Bool.not_eq_true] at hacc
      simp [entryNonDoneCount, hacc]
  · rcases migrate_today_list todayStr profile sys with hcase | hcase | hcase
    · rw [hcase, hreadToday]
      exact htoday
    · rw [hcase]
      exact hg1
    · rw [hcase, List.map_append, List.nodup_append]
      refine ⟨hg1, ?_, ?_⟩
      · have hmig : (((rolloverScan profile todayStr sys.store sys.store).2.1).map
            Task.id).Nodup :=
          hpast.sublist (rolloverScan_migrated_sublist profile todayStr sys.store
            sys.store)
        exact hmig.sublist ((List.filter_sublist _).map Task.id)
      · intro a ha hb
        obtain ⟨t, htmem, rfl⟩ := List.mem_map.mp hb
        have hfilt := (List.mem_filter.mp htmem).2
        rw [decide_eq_true_eq] at hfilt
        exact hfilt ha

/-- C3 (witness): a concrete store where today's list and a stale past
partition share the id `a` (exercising the skip-on-append path) and a
second past partition holds a different unfinished task `b`; the second
rollover relocates nothing. -/
theorem c3_rollover_idempotent_witness :
    (migrateTasksToToday "2026-10-12".toList DEFAULT_PROFILE
        (migrateTasksToToday "2026-10-12".toList DEFAULT_PROFILE
          ⟨[(getTaskKey "2000-01-01".toList DEFAULT_PROFILE,
              StoredVal.tasks [sampleTask ['a'] TaskStatus.todo]),
            (getTaskKey "2000-01-02".toList DEFAULT_PROFILE,
              StoredVal.tasks [sampleTask ['b'] TaskStatus.todo]),
            (getTaskKey "2026-10-12".toList DEFAULT_PROFILE,
              StoredVal.tasks [sampleTask ['a'] TaskStatus.done])], []⟩).1).2 = 0 :=
  (c3_rollover_idempotent "2026-10-12".toList DEFAULT_PROFILE
    ⟨[(getTaskKey "2000-01-01".toList DEFAULT_PROFILE,
        StoredVal.tasks [sampleTask ['a'] TaskStatus.todo]),
      (getTaskKey "2000-01-02".toList DEFAULT_PROFILE,
        StoredVal.tasks [sampleTask ['b'] TaskStatus.todo]),
      (getTaskKey "2026-10-12".toList DEFAULT_PROFILE,
        StoredVal.tasks [sampleTask ['a'] TaskStatus.done])], []⟩
    (by decide) (by decide) (by decide)
    (fun v h => by
      have hnone : getItem
          [(getTaskKey "2000-01-01".toList DEFAULT_PROFILE,
              StoredVal.tasks [sampleTask ['a'] TaskStatus.todo]),
            (getTaskKey "2000-01-02".toList DEFAULT_PROFILE,
              StoredVal.tasks [sampleTask ['b'] TaskStatus.todo]),
            (getTaskKey "2026-10-12".toList DEFAULT_PROFILE,
              StoredVal.tasks [sampleTask ['a'] TaskStatus.done])]
          LEGACY_KEY = none := by decide
      rw [hnone] at h
      exact Option.noConfusion h)).1

end Standup
